import Mathlib

/-!
Verification of the `hosttech_dns` Ansible modules
(`library/hosttech_dns.py`, `library/hosttech_dns_record_facts.py`).

This file gives a shallow embedding of the WSDL value codec, the response
parser and the record-reconciliation logic of the module, and proves (or
refutes) the specified properties about them.

Modelling conventions:
- Python values handled by the codec become the inductive type `PyVal`.
- lxml elements become the structure `XmlNode`.  A tag is split into its
  namespace (`ns`, `Option String`, as produced by `lxml.etree.QName`) and its
  local name (`tag`).  The two attributes the code ever touches (`xsi:nil` and
  `xsi:type`) are dedicated fields; `xsi:type` stores the already-resolved
  (namespace, local type) pair, abstracting lxml's QName prefix resolution.
  `nsmap` models the element's effective namespace-prefix map.
- Python exceptions become the error type `PyError` inside `Except`.
- String scanning helpers are implemented over `String.data` (lists of
  characters) so that all definitions reduce inside the kernel; they model the
  corresponding Python string operations.
-/

/-- Python values that can reach the codec: `None`, `str`, `int`, `bool`,
`dict` (insertion ordered) and `list`. -/
inductive PyVal where
  | none
  | str (s : String)
  | int (n : Int)
  | bool (b : Bool)
  | dict (entries : List (PyVal × PyVal))
  | list (elems : List PyVal)
deriving Repr, Inhabited

/-- Python exceptions and module failures that the modelled code can raise. -/
inductive PyError where
  | codingError (msg : String)            -- WSDLCodingException
  | valueError (msg : String)             -- Python ValueError
  | typeError (msg : String)              -- Python TypeError
  | wsdlError (origin : String) (message : String)  -- WSDLError
  | keyError (key : String)               -- Python KeyError
  | failJson (msg : String)               -- AnsibleModule.fail_json
deriving DecidableEq, Repr

/-- An lxml element, reduced to the parts the code reads and writes. -/
structure XmlNode where
  ns : Option String
  tag : String
  nilAttr : Option String
  typeAttr : Option (String × String)
  text : Option String
  children : List XmlNode
  nsmap : List (String × String)

/-- Model of `lxml.etree.Element(tag)`: a fresh element with a plain tag. -/
def newElem (tag : String) : XmlNode :=
  { ns := Option.none, tag := tag, nilAttr := Option.none, typeAttr := Option.none,
    text := Option.none, children := [], nsmap := [] }

/-- Namespace constants from `hosttech_dns.py` lines 242-245. -/
def _NAMESPACE_XSI : String := "http://www.w3.org/2001/XMLSchema-instance"

def _NAMESPACE_XSD : String := "http://www.w3.org/2001/XMLSchema"

def _NAMESPACE_XML_SOAP : String := "http://xml.apache.org/xml-soap"

def _NAMESPACE_XML_SOAP_ENCODING : String := "http://schemas.xmlsoap.org/soap/encoding/"

/-- Model of Python `str(value)` for the two kinds that can reach the
`isinstance(value, int)` branch of `encode_wsdl`: `str(True) = "True"`,
`str(False) = "False"`, and decimal rendering for `int`. -/
def py_str_of_int_branch : PyVal → String
  | .bool b => if b then "True" else "False"
  | .int n => toString n
  | _ => ""

/-- Model of Python `int(s)` on a string: strip surrounding whitespace, allow
one optional sign, then decimal digits; anything else raises `ValueError`
(modelled as `Option.none`).  (Digit-group underscores of newer Pythons are
not modelled; no input in this development uses them.) -/
def py_int (s : String) : Option Int :=
  let t := ((s.data.dropWhile Char.isWhitespace).reverse.dropWhile Char.isWhitespace).reverse
  let digitsVal : List Char → Option Nat := fun ds =>
    if ds ≠ [] ∧ ds.all Char.isDigit then
      some (ds.foldl (fun acc c => acc * 10 + (c.toNat - 48)) 0)
    else Option.none
  match t with
  | '-' :: ds => (digitsVal ds).map fun n => -(n : Int)
  | '+' :: ds => (digitsVal ds).map fun n => (n : Int)
  | ds => (digitsVal ds).map fun n => (n : Int)

mutual

/-- Structural equality test on `PyVal`, used to model Python `==` where the
code compares or keys dictionary values.  (Python's cross-type numeric
equalities such as `True == 1` never arise in the modelled code paths.) -/
def PyVal.eqb : PyVal → PyVal → Bool
  | .none, .none => true
  | .str a, .str b => a == b
  | .int a, .int b => a == b
  | .bool a, .bool b => a == b
  | .dict a, .dict b => eqbPairs a b
  | .list a, .list b => eqbVals a b
  | _, _ => false
termination_by structural v _ => v

def eqbPairs : List (PyVal × PyVal) → List (PyVal × PyVal) → Bool
  | [], [] => true
  | (k, v) :: rest, (k2, v2) :: rest2 =>
    PyVal.eqb k k2 && PyVal.eqb v v2 && eqbPairs rest rest2
  | _, _ => false
termination_by structural l _ => l

def eqbVals : List PyVal → List PyVal → Bool
  | [], [] => true
  | v :: rest, v2 :: rest2 => PyVal.eqb v v2 && eqbVals rest rest2
  | _, _ => false
termination_by structural l _ => l

end

/-- Python dictionary assignment `d[k] = v`: replace the value at an existing
key in place, else append the new binding. -/
def pyUpsert (d : List (PyVal × PyVal)) (k v : PyVal) : List (PyVal × PyVal) :=
  match d with
  | [] => [(k, v)]
  | (k0, v0) :: rest =>
    if PyVal.eqb k0 k then (k0, v) :: rest else (k0, v0) :: pyUpsert rest k v

/-- Folding a sequence of `result[key] = value` assignments into a Python
dict, starting from the empty dict. -/
def pyUpsertAll (entries : List (PyVal × PyVal)) : List (PyVal × PyVal) :=
  entries.foldl (fun d kv => pyUpsert d kv.1 kv.2) []

mutual

/-- Model of `encode_wsdl(node, value)` (`hosttech_dns.py` lines 252-282).
The Python code dispatches with an `isinstance` chain in the order
None / str / int / bool / dict / list.  Because `bool` is a subclass of `int`
in Python, `isinstance(value, int)` is true for `True` and `False`, so the
`int` branch fires for booleans and sets `node.text = str(value)`, i.e.
`"True"` / `"False"`; the dedicated boolean branch of the source is
unreachable.  The final `else` branch (raising `WSDLCodingException` for
unsupported kinds) is unreachable over `PyVal`, which covers exactly the
supported kinds. -/
def encode_wsdl (node : XmlNode) : PyVal → XmlNode
  | .none => { node with nilAttr := some "true" }
  | .str s =>
    { node with
        typeAttr := some (_NAMESPACE_XSD, "string")
        text := some s }
  | .int n =>
    { node with
        typeAttr := some (_NAMESPACE_XSD, "int")
        text := some (py_str_of_int_branch (.int n)) }
  | .bool b =>
    -- caught by the `isinstance(value, int)` branch, see the doc comment
    { node with
        typeAttr := some (_NAMESPACE_XSD, "int")
        text := some (py_str_of_int_branch (.bool b)) }
  | .dict es =>
    { node with
        typeAttr := some (_NAMESPACE_XML_SOAP, "Map")
        children := node.children ++ encodeMapEntries es }
  | .list es =>
    { node with
        typeAttr := some (_NAMESPACE_XML_SOAP_ENCODING, "Array")
        children := node.children ++ encodeArrayItems es }
termination_by structural v => v

/-- Children appended by the `dict` branch of `encode_wsdl`: one `item`
element per entry, holding an encoded `key` and an encoded `value` child. -/
def encodeMapEntries : List (PyVal × PyVal) → List XmlNode
  | [] => []
  | (k, v) :: rest =>
    { (newElem "item") with
        children := [encode_wsdl (newElem "key") k, encode_wsdl (newElem "value") v] }
      :: encodeMapEntries rest
termination_by structural l => l

/-- Children appended by the `list` branch of `encode_wsdl`: one encoded
`item` element per list element. -/
def encodeArrayItems : List PyVal → List XmlNode
  | [] => []
  | v :: rest => encode_wsdl (newElem "item") v :: encodeArrayItems rest
termination_by structural l => l

end

mutual

/-- Model of `decode_wsdl(node)` (`hosttech_dns.py` lines 285-337).
The `xsi:type` attribute is modelled as an already-resolved
(namespace, local name) pair, so the source's `_split_text_namespace` call and
its "Cannot find namespace" error (an unresolvable prefix) have no
counterpart here.  `int(node.text)` raises `TypeError` when the text is
absent (Python `None`) and `ValueError` when it is not an integer literal. -/
def decode_wsdl : XmlNode → Except PyError PyVal
  | ⟨_, _, nilAttr, typeAttr, text, children, _⟩ =>
    if nilAttr = some "true" then .ok .none
    else
      match typeAttr with
      | Option.none => .error (.codingError "Element has no xsi:type tag!")
      | some (ns, ty) =>
        if ns = _NAMESPACE_XSD then
          if ty = "boolean" then
            if text = some "true" then .ok (.bool true)
            else if text = some "false" then .ok (.bool false)
            else .error (.codingError "Invalid value for boolean")
          else if ty = "int" then
            match text with
            | Option.none => .error (.typeError "int argument must not be None")
            | some t =>
              match py_int t with
              | some n => .ok (.int n)
              | Option.none => .error (.valueError "invalid literal for int with base 10")
          else if ty = "string" then
            -- Python returns `node.text` directly; absent text is `None`
            .ok (match text with | some s => .str s | Option.none => .none)
          else .error (.codingError "Unknown XSD type!")
        else if ns = _NAMESPACE_XML_SOAP then
          if ty = "Map" then
            match decodeMapItems children with
            | .ok entries => .ok (.dict (pyUpsertAll entries))
            | .error e => .error e
          else .error (.codingError "Unknown XSD type!")
        else if ns = _NAMESPACE_XML_SOAP_ENCODING then
          if ty = "Array" then
            match decodeArrayItems children with
            | .ok elems => .ok (.list elems)
            | .error e => .error e
          else .error (.codingError "Unknown XSD type!")
        else .error (.codingError "Unknown type namespace!")
termination_by structural n => n

/-- The `Map` loop of `decode_wsdl`: every child must be a plain `item`
element; its first `key` child and first `value` child are decoded and the
pair stored (the Python code assigns `result[key] = value` on a dict, modelled
at the end by `pyUpsertAll`). -/
def decodeMapItems : List XmlNode → Except PyError (List (PyVal × PyVal))
  | [] => .ok []
  | ⟨ins, itag, _, _, _, ichildren, _⟩ :: rest =>
    if ins ≠ Option.none ∨ itag ≠ "item" then
      .error (.codingError "Invalid child tag in map!")
    else
      match decodeFind "key" ichildren with
      | .error e => .error e
      | .ok Option.none => .error (.codingError "Cannot find key!")
      | .ok (some kv) =>
        match decodeFind "value" ichildren with
        | .error e => .error e
        | .ok Option.none => .error (.codingError "Cannot find value!")
        | .ok (some vv) =>
          match decodeMapItems rest with
          | .error e => .error e
          | .ok restd => .ok ((kv, vv) :: restd)
termination_by structural l => l

/-- The `Array` loop of `decode_wsdl`: every child must be a plain `item`
element and is decoded in order. -/
def decodeArrayItems : List XmlNode → Except PyError (List PyVal)
  | [] => .ok []
  | c :: rest =>
    if c.ns ≠ Option.none ∨ c.tag ≠ "item" then
      .error (.codingError "Invalid child tag in map!")
    else
      match decode_wsdl c with
      | .error e => .error e
      | .ok v =>
        match decodeArrayItems rest with
        | .error e => .error e
        | .ok vs => .ok (v :: vs)
termination_by structural l => l

/-- Model of `item.find(tag)` fused with decoding: Python's `find` returns the
first direct child with the given plain tag, which the caller then decodes.
Fusing the two keeps the recursion structural; the observable behaviour
(decode the first matching child, `None` when there is no match) is
identical. -/
def decodeFind (tag : String) : List XmlNode → Except PyError (Option PyVal)
  | [] => .ok Option.none
  | c :: rest =>
    if c.ns = Option.none ∧ c.tag = tag then
      match decode_wsdl c with
      | .error e => .error e
      | .ok v => .ok (some v)
    else decodeFind tag rest
termination_by structural l => l

end

mutual

/-- Model of `lxml` element iteration `node.iter(...)` before filtering: the
element itself followed by all descendants in document order. -/
def XmlNode.iterAll : XmlNode → List XmlNode
  | ⟨ns, tag, nilAttr, typeAttr, text, children, nsmap⟩ =>
    ⟨ns, tag, nilAttr, typeAttr, text, children, nsmap⟩ :: iterAllList children
termination_by structural n => n

/-- Document-order iteration over a list of sibling subtrees. -/
def iterAllList : List XmlNode → List XmlNode
  | [] => []
  | c :: rest => c.iterAll ++ iterAllList rest
termination_by structural l => l

end

/-- Splitting a character list at the first occurrence of `sep`:
`some (before, after)` when `sep` occurs, `none` otherwise. -/
def splitFirstChar (sep : Char) : List Char → Option (List Char × List Char)
  | [] => Option.none
  | c :: rest =>
    if c = sep then some ([], rest)
    else (splitFirstChar sep rest).map fun p => (c :: p.1, p.2)

/-- Model of `_split_text_namespace(node, text)` (`hosttech_dns.py` lines
233-239): split at the first colon; without a colon return the text and no
namespace, otherwise resolve the part before the colon through the node's
namespace map and return the part after the colon together with the resolved
namespace (which may be absent). -/
def _split_text_namespace (node : XmlNode) (text : String) : String × Option String :=
  match splitFirstChar ':' text.data with
  | Option.none => (text, Option.none)
  | some (pre, post) => (String.mk post, node.nsmap.lookup (String.mk pre))

/-- Model of Python `str.lower()` for the ASCII fault codes in scope. -/
def py_lower (s : String) : String := String.mk (s.data.map Char.toLower)

/-- Model of `node.find(tag)`: the first direct child with the given plain
(namespace-less) tag. -/
def pyFind (node : XmlNode) (tag : String) : Option XmlNode :=
  node.children.find? fun c => c.ns.isNone && c.tag == tag

/-- SOAP envelope namespace (`self._main_ns` of `Parser` and `Composer`). -/
def _main_ns : String := "http://schemas.xmlsoap.org/soap/envelope/"

def isFaultTag (n : XmlNode) : Bool := n.ns == some _main_ns && n.tag == "Fault"

def isHeaderTag (n : XmlNode) : Bool := n.ns == some _main_ns && n.tag == "Header"

def isBodyTag (n : XmlNode) : Bool := n.ns == some _main_ns && n.tag == "Body"

/-- All descendants of a parser child element tagged plain `return`
(`child.iter('return')` in `Parser._parse`). -/
def returnsOf (child : XmlNode) : List XmlNode :=
  child.iterAll.filter fun r => r.ns.isNone && r.tag == "return"

/-- Python dict assignment for the string-keyed parser result dicts. -/
def pyDictSet (d : List (String × PyVal)) (k : String) (v : PyVal) :
    List (String × PyVal) :=
  match d with
  | [] => [(k, v)]
  | (k0, v0) :: rest =>
    if k0 = k then (k0, v) :: rest else (k0, v0) :: pyDictSet rest k v

/-- Python dict lookup for the string-keyed parser result dicts. -/
def pyDictGet (d : List (String × PyVal)) (k : String) : Option PyVal :=
  match d with
  | [] => Option.none
  | (k0, v0) :: rest => if k0 = k then some v0 else pyDictGet rest k

/-- Model of the body of the `for child in node` loop of `Parser._parse`
(`hosttech_dns.py` lines 342-347) for one child: reject a child whose
namespace is not the endpoint's, then for every `return` descendant assign its
decoded value to `result[tag.localname]` — so with several `return`
descendants, or several children sharing a local name, each later assignment
overwrites the earlier one. -/
def parseChild (api : String) (result : List (String × PyVal)) (child : XmlNode) :
    Except PyError (List (String × PyVal)) :=
  if child.ns ≠ some api then .error (.codingError "Cannot interpret item!")
  else
    (returnsOf child).foldlM
      (fun acc res =>
        match decode_wsdl res with
        | .error e => .error e
        | .ok v => .ok (pyDictSet acc child.tag v))
      result

/-- Model of `Parser._parse(result, node, where)`: process every direct child
of a `Header`/`Body` section node. -/
def Parser_parse (api : String) (result : List (String × PyVal)) (node : XmlNode) :
    Except PyError (List (String × PyVal)) :=
  node.children.foldlM (parseChild api) result

/-- The fault origin computed by `Parser.__init__`: the lower-cased code of a
non-empty `faultcode` child whose code prefix resolves to the envelope
namespace, else `"server"`. -/
def faultOrigin (fault : XmlNode) : String :=
  match pyFind fault "faultcode" with
  | some fc =>
    match fc.text with
    | some t =>
      if t ≠ "" then
        let co := _split_text_namespace fault t
        if co.2 = some _main_ns then py_lower co.1 else "server"
      else "server"
    | Option.none => "server"
  | Option.none => "server"

/-- The `WSDLError` raised for the first fault element found by
`Parser.__init__`: the message is a non-empty `faultstring` text, else the
serialized fault element (serialization modelled by a placeholder string —
no property depends on that message text). -/
def faultError (fault : XmlNode) : PyError :=
  match pyFind fault "faultstring" with
  | some fs =>
    match fs.text with
    | some t =>
      if t ≠ "" then .wsdlError (faultOrigin fault) t
      else .wsdlError (faultOrigin fault) "serialized fault element"
    | Option.none => .wsdlError (faultOrigin fault) "serialized fault element"
  | Option.none => .wsdlError (faultOrigin fault) "serialized fault element"

/-- Parser state after a successful `Parser.__init__`: the decoded header and
body result dicts. -/
structure ParserState where
  header : List (String × PyVal)
  body : List (String × PyVal)
deriving Repr

/-- Model of `Parser.__init__(api, root)` (`hosttech_dns.py` lines 349-369):
scan the whole document for fault elements in the envelope namespace and raise
a `WSDLError` for the first one before anything else; only in the fault-free
case walk all `Header` and `Body` sections and decode their children into the
header and body result dicts. -/
def Parser_init (api : String) (root : XmlNode) : Except PyError ParserState :=
  match (root.iterAll.filter isFaultTag).head? with
  | some fault => .error (faultError fault)
  | Option.none =>
    match (root.iterAll.filter isHeaderTag).foldlM (Parser_parse api) [] with
    | .error e => .error e
    | .ok header =>
      match (root.iterAll.filter isBodyTag).foldlM (Parser_parse api) [] with
      | .error e => .error e
      | .ok body => .ok ⟨header, body⟩

/-- Model of `Parser.get_header`: dict lookup, `KeyError` when absent. -/
def Parser_get_header (p : ParserState) (name : String) : Except PyError PyVal :=
  match pyDictGet p.header name with
  | some v => .ok v
  | Option.none => .error (.keyError name)

/-- Model of `Parser.get_result`: dict lookup, `KeyError` when absent. -/
def Parser_get_result (p : ParserState) (name : String) : Except PyError PyVal :=
  match pyDictGet p.body name with
  | some v => .ok v
  | Option.none => .error (.keyError name)

/-- DNS record data model (`class DNSRecord`, `hosttech_dns.py` lines
467-475), restricted to the fields the reconciliation logic reads: `id` (None
until the server assigns one), the subdomain label (`pfx` here, since the
source's field name is not usable in Lean), `type`, `target`, `ttl` and
`priority`.  The unused `zone` back-reference is dropped. -/
structure DNSRecord where
  id : Option Int
  pfx : Option String
  type : String
  target : String
  ttl : Int
  priority : Option Int
deriving DecidableEq, Repr, Inhabited

/-- The pair `val = (record.priority, record.target)` from the comparison
loop. -/
def recPair (r : DNSRecord) : Option Int × String := (r.priority, r.target)

/-- The two module states that reach the reconciliation logic (`get` exits
beforehand). -/
inductive RecState where
  | present
  | absent
deriving DecidableEq, Repr

/-- Model of the record-comparison loop (`hosttech_dns.py` lines 1057-1070):
walk the candidate records in order; a record whose ttl differs from `ttl_in`
or whose `(priority, target)` pair is not in the remaining `values` is
appended to `mismatch_records`; a matching record removes the first copy of
its pair from `values`.  Returns `(matched, mismatch_records, values_left)`;
the first component (the records that matched, in order) is not materialised
by the source but is determined by the same walk and is tracked for the
proofs.  The source's `mismatch` flag is true iff `mismatch_records` or
`values_left` is non-empty (the flag is set exactly when a record is appended,
plus the final `if values: mismatch = True`). -/
def compareRecords (ttl_in : Int) :
    List DNSRecord → List (Option Int × String) →
    List DNSRecord × List DNSRecord × List (Option Int × String)
  | [], values => ([], [], values)
  | r :: rest, values =>
    if r.ttl ≠ ttl_in then
      let res := compareRecords ttl_in rest values
      (res.1, r :: res.2.1, res.2.2)
    else if recPair r ∈ values then
      let res := compareRecords ttl_in rest (values.erase (recPair r))
      (r :: res.1, res.2.1, res.2.2)
    else
      let res := compareRecords ttl_in rest values
      (res.1, r :: res.2.1, res.2.2)

/-- Field assignment performed on a record taken out of `to_delete` by
`to_delete.pop()` (`hosttech_dns.py` lines 1096-1106): keep its identity,
overwrite the managed fields from the desired state. -/
def updRec (pfx : Option String) (type_in : String) (ttl_in : Int)
    (pt : Option Int × String) (r : DNSRecord) : DNSRecord :=
  { r with
      pfx := pfx
      type := type_in
      ttl := ttl_in
      priority := pt.1
      target := pt.2 }

/-- A fresh record built by `DNSRecord()` plus the same field assignments
(`hosttech_dns.py` lines 1100-1106): no id yet. -/
def newRec (pfx : Option String) (type_in : String) (ttl_in : Int)
    (pt : Option Int × String) : DNSRecord :=
  { id := Option.none
    pfx := pfx
    type := type_in
    ttl := ttl_in
    priority := pt.1
    target := pt.2 }

/-- Model of the operation-building loop (`hosttech_dns.py` lines 1093-1106):
for each remaining desired `(priority, target)` pair in order, pop the most
recently listed record still in `to_delete` (Python `list.pop()` takes the
last element) and turn it into an update, or create a new record once
`to_delete` is exhausted.  Returns the final `(to_delete, to_change,
to_create)`. -/
def buildOps (pfx : Option String) (type_in : String) (ttl_in : Int) :
    List (Option Int × String) → List DNSRecord →
    List DNSRecord × List DNSRecord × List DNSRecord
  | [], to_delete => (to_delete, [], [])
  | pt :: rest, to_delete =>
    match to_delete.getLast? with
    | some r0 =>
      let res := buildOps pfx type_in ttl_in rest to_delete.dropLast
      (res.1, updRec pfx type_in ttl_in pt r0 :: res.2.1, res.2.2)
    | Option.none =>
      let res := buildOps pfx type_in ttl_in rest []
      (res.1, res.2.1, newRec pfx type_in ttl_in pt :: res.2.2)

/-- Model of the pure reconciliation step of `run_module`
(`hosttech_dns.py` lines 1055-1109): compare the candidate records with the
desired state, then decide `to_delete` / `to_change` / `to_create`.
Under `present`: with candidates and a mismatch, fail unless `overwrite` is
set, in which case the mismatched records seed `to_delete`; the loop over the
leftover desired values then converts deletions into updates or adds
creations.  Under `absent`: delete all candidates exactly when there is no
mismatch.  The conflict `fail_json` becomes an `Except.error`. -/
def reconcile (state : RecState) (overwrite : Bool) (pfx : Option String)
    (type_in : String) (ttl_in : Int) (values : List (Option Int × String))
    (records : List DNSRecord) :
    Except PyError (List DNSRecord × List DNSRecord × List DNSRecord) :=
  let res := compareRecords ttl_in records values
  let mismatch_records := res.2.1
  let values_left := res.2.2
  let mismatch := !mismatch_records.isEmpty || !values_left.isEmpty
  match state with
  | .present =>
    if !records.isEmpty && mismatch && !overwrite then
      .error (.failJson "Record already exists with different value. Set overwrite to replace it")
    else
      let to_delete :=
        if !records.isEmpty && mismatch && overwrite then mismatch_records else []
      .ok (buildOps pfx type_in ttl_in values_left to_delete)
  | .absent =>
    if !mismatch then .ok (records, [], []) else .ok ([], [], [])

/-- Effect of the emitted operations on one candidate record, with object
identity modelled through record ids: a record whose id is listed in
`to_delete` is removed (`api.delete_record`), one whose id carries an entry in
`to_change` is replaced by that entry's new fields (`api.update_record`), any
other record is untouched. -/
def applyRecordOps (to_delete to_change : List DNSRecord) (r : DNSRecord) :
    Option DNSRecord :=
  if to_delete.any fun d => d.id == r.id then Option.none
  else
    match to_change.find? fun c => c.id == r.id with
    | some c => some c
    | Option.none => some r

/-- The record set after executing an operation list against the candidate
records: deletions and updates applied to each candidate, created records
appended (`hosttech_dns.py` lines 1116-1123). -/
def applyAll (records to_delete to_change to_create : List DNSRecord) :
    List DNSRecord :=
  records.filterMap (applyRecordOps to_delete to_change) ++ to_create

/-- Model of `value.split(' ', 1)`: split at the first space only; a string
without a space yields a single-element list. -/
def split_space_1 (s : String) : List String :=
  match splitFirstChar ' ' s.data with
  | Option.none => [s]
  | some (a, b) => [String.mk a, String.mk b]

/-- Model of one iteration of the value-parsing loop (`hosttech_dns.py` lines
1048-1053).  For the priority-bearing types `PTR` and `MX` the Python code
runs `priority, value = value.split(' ', 1)` — unpacking a single-element
list raises `ValueError` — and converts the part before the first space with
`int()`, which raises `ValueError` on a non-integer literal.  Other types get
priority `None`. -/
def parse_value (type_in : String) (value : String) :
    Except PyError (Option Int × String) :=
  if type_in = "PTR" ∨ type_in = "MX" then
    match split_space_1 value with
    | [p, v] =>
      match py_int p with
      | some n => .ok (some n, v)
      | Option.none => .error (.valueError "invalid literal for int with base 10")
    | _ => .error (.valueError "not enough values to unpack")
  else .ok (Option.none, value)

/-- The whole value-parsing loop: parse each supplied value string in order;
the first exception aborts the module. -/
def parse_values (type_in : String) : List String →
    Except PyError (List (Option Int × String))
  | [] => .ok []
  | v :: rest =>
    match parse_value type_in v with
    | .error e => .error e
    | .ok pv =>
      match parse_values type_in rest with
      | .error e => .error e
      | .ok pvs => .ok (pv :: pvs)

/-- Value parsing followed by reconciliation, in the order `run_module`
performs them (lines 1045-1109): a `ValueError` from value parsing escapes
before any record comparison or operation is computed. -/
def run_module_reconcile (state : RecState) (overwrite : Bool)
    (pfx : Option String) (type_in : String) (ttl_in : Int)
    (value_in : List String) (records : List DNSRecord) :
    Except PyError (List DNSRecord × List DNSRecord × List DNSRecord) :=
  match parse_values type_in value_in with
  | .error e => .error e
  | .ok values => reconcile state overwrite pfx type_in ttl_in values records

/-- The `set` result of a successful `get`.  `ttls` holds the optional
`data['ttls']` entry with exactly the value the source would store there (the
1-tuple of the ttl set). -/
structure GetData where
  record : String
  type : String
  ttl : Int
  value : List String
  ttls : Option (List (List Int))
deriving DecidableEq, Repr

/-- Model of Python `min` over a non-empty collection of ints.  (Python's
`min` raises on an empty iterable; this is only applied under a non-emptiness
guard, where the default branch is unreachable.) -/
def py_min_list (l : List Int) : Int :=
  match l with
  | [] => 0
  | x :: rest => rest.foldl min x

/-- Model of the `state == 'get'` branch of `run_module`
(`hosttech_dns.py` lines 1027-1043).  The Python line
`ttls = {record.ttl for record in records},` ends in a comma, so `ttls` is a
1-tuple containing the ttl set (modelled as a deduplicated list: only its
cardinality and minimum are consumed).  `min(*ttls)` unpacks that 1-tuple and
takes the minimum of the set; `len(ttls)` is the length of the 1-tuple, which
is always 1, so the `data['ttls']` entry is never written.  No records yields
an empty `set` result (`Option.none` here). -/
def run_module_get (record_in type_in : String) (records : List DNSRecord) :
    Option GetData :=
  if records.isEmpty then Option.none
  else
    let ttlSet : List Int := (records.map fun r => r.ttl).dedup
    let ttlsTuple : List (List Int) := [ttlSet]
    some
      { record := record_in
        type := type_in
        ttl := py_min_list ttlSet
        value := records.map fun r => r.target
        ttls := if ttlsTuple.length > 1 then some ttlsTuple else Option.none }

/-- Model of the result computation of `hosttech_dns_record_facts.run_module`
(lines 164-176), which has the same 1-tuple slip:
`ttls = set([record.ttl for record in records]),` and
`min(*list(ttls))`. -/
def facts_run_module_get (record_in type_in : String)
    (records : List DNSRecord) : Option GetData :=
  if records.isEmpty then Option.none
  else
    let ttlSet : List Int := (records.map fun r => r.ttl).dedup
    let ttlsTuple : List (List Int) := [ttlSet]
    some
      { record := record_in
        type := type_in
        ttl := py_min_list ttlSet
        value := records.map fun r => r.target
        ttls := if ttlsTuple.length > 1 then some ttlsTuple else Option.none }

/-!  Supporting lemmas about the comparison loop. -/

/-- Variant of `List.perm_cons_erase` stated for any lawful `BEq` instance
(the erase in `compareRecords` elaborates with the product `BEq`
instance). -/
theorem perm_cons_erase_lawful {α : Type} [BEq α] [LawfulBEq α] {a : α}
    {l : List α} (h : a ∈ l) : l.Perm (a :: l.erase a) := by
  induction l with
  | nil => cases h
  | cons x xs ih =>
    rw [List.erase_cons]
    by_cases hx : x == a
    · rw [if_pos hx]
      rw [show x = a from by simpa using hx]
    · rw [if_neg hx]
      have ha : a ∈ xs := by
        rcases List.mem_cons.mp h with rfl | hm
        · simp at hx
        · exact hm
      exact ((ih ha).cons x).trans (List.Perm.swap a x (xs.erase a))

/-- The comparison walk partitions the candidate records into the matched ones
and the mismatched ones. -/
theorem compareRecords_perm_records (ttl_in : Int) (records : List DNSRecord)
    (values : List (Option Int × String)) :
    records.Perm ((compareRecords ttl_in records values).1 ++
      (compareRecords ttl_in records values).2.1) := by
  induction records generalizing values with
  | nil => simp [compareRecords]
  | cons r rest ih =>
    by_cases h1 : r.ttl ≠ ttl_in
    · simp only [compareRecords, if_pos h1]
      exact ((ih values).cons r).trans List.perm_middle.symm
    · by_cases h2 : recPair r ∈ values
      · simp only [compareRecords, if_neg h1, if_pos h2]
        exact (ih (values.erase (recPair r))).cons r
      · simp only [compareRecords, if_neg h1, if_neg h2]
        exact ((ih values).cons r).trans List.perm_middle.symm

/-- The desired values are, up to permutation, the pairs consumed by the
matched records together with the leftover values. -/
theorem compareRecords_perm_values (ttl_in : Int) (records : List DNSRecord)
    (values : List (Option Int × String)) :
    values.Perm (((compareRecords ttl_in records values).1.map recPair) ++
      (compareRecords ttl_in records values).2.2) := by
  induction records generalizing values with
  | nil => simp [compareRecords]
  | cons r rest ih =>
    by_cases h1 : r.ttl ≠ ttl_in
    · simp only [compareRecords, if_pos h1]
      exact ih values
    · by_cases h2 : recPair r ∈ values
      · simp only [compareRecords, if_neg h1, if_pos h2, List.map_cons, List.cons_append]
        exact (perm_cons_erase_lawful h2).trans ((ih (values.erase (recPair r))).cons _)
      · simp only [compareRecords, if_neg h1, if_neg h2]
        exact ih values

/-- Every matched record has the desired ttl. -/
theorem compareRecords_matched_ttl (ttl_in : Int) (records : List DNSRecord)
    (values : List (Option Int × String)) :
    ∀ r ∈ (compareRecords ttl_in records values).1, r.ttl = ttl_in := by
  induction records generalizing values with
  | nil => simp [compareRecords]
  | cons r rest ih =>
    by_cases h1 : r.ttl ≠ ttl_in
    · simp only [compareRecords, if_pos h1]
      exact ih values
    · by_cases h2 : recPair r ∈ values
      · simp only [compareRecords, if_neg h1, if_pos h2, List.mem_cons]
        rintro x (rfl | hx)
        · exact not_ne_iff.mp h1
        · exact ih (values.erase (recPair r)) x hx
      · simp only [compareRecords, if_neg h1, if_neg h2]
        exact ih values

/-- Completeness of the matcher: a record set whose ttls all equal the
desired ttl and whose `(priority, target)` pairs are a permutation of the
desired values matches completely — no mismatched record, no leftover
value. -/
theorem compareRecords_of_exact (ttl_in : Int) (records : List DNSRecord)
    (values : List (Option Int × String))
    (h1 : ∀ r ∈ records, r.ttl = ttl_in)
    (h2 : (records.map recPair).Perm values) :
    compareRecords ttl_in records values = (records, [], []) := by
  induction records generalizing values with
  | nil =>
    simp only [List.map_nil] at h2
    rw [h2.symm.eq_nil]
    rfl
  | cons r rest ih =>
    have httl : r.ttl = ttl_in := h1 r (List.mem_cons_self r rest)
    have hmem : recPair r ∈ values := h2.mem_iff.mp (by simp)
    have hrest : (rest.map recPair).Perm (values.erase (recPair r)) := by
      have hv : values.Perm (recPair r :: values.erase (recPair r)) :=
        perm_cons_erase_lawful hmem
      exact (h2.trans hv).cons_inv
    simp only [compareRecords, if_neg (not_ne_iff.mpr httl), if_pos hmem,
      ih (values.erase (recPair r)) (fun x hx => h1 x (List.mem_cons_of_mem r hx)) hrest]

/-!  Supporting lemmas about the operation-building loop. -/

/-- Closed form of `buildOps`: the records that stay deleted are the earliest
entries of `to_delete`; each desired value is paired with the elements of
`to_delete` from the back (`pop()` order, i.e. `to_delete.reverse`); values
beyond `to_delete.length` become creations, in order. -/
theorem buildOps_eq (pfx : Option String) (type_in : String) (ttl_in : Int)
    (vs : List (Option Int × String)) (td : List DNSRecord) :
    buildOps pfx type_in ttl_in vs td =
      (td.take (td.length - vs.length),
       List.zipWith (updRec pfx type_in ttl_in) vs td.reverse,
       (vs.drop td.length).map (newRec pfx type_in ttl_in)) := by
  induction vs generalizing td with
  | nil => simp [buildOps]
  | cons pt rest ih =>
    match htd : td.getLast? with
    | Option.none =>
      have : td = [] := List.getLast?_eq_none_iff.mp htd
      subst this
      simp [buildOps, ih]
    | some r0 =>
      obtain ⟨ys, rfl⟩ := List.getLast?_eq_some_iff.mp htd
      have hdl : (ys ++ [r0]).dropLast = ys := List.dropLast_concat
      have hlen : (ys ++ [r0]).length = ys.length + 1 := by simp
      simp only [buildOps, List.getLast?_concat, hdl, ih ys, Prod.mk.injEq]
      refine ⟨?_, ?_, ?_⟩
      · rw [show (ys ++ [r0]).length - (pt :: rest).length = ys.length - rest.length by
          simp]
        rw [List.take_append_of_le_length (Nat.sub_le _ _)]
      · rw [List.reverse_concat, List.zipWith_cons_cons]
      · rw [hlen, List.drop_succ_cons]

/-!  Helper lemmas about `zipWith`, `map` and `filterMap`. -/

theorem zipWith_updRec_map_pair (pfx : Option String) (type_in : String)
    (ttl_in : Int) (vs : List (Option Int × String)) (ws : List DNSRecord) :
    (List.zipWith (updRec pfx type_in ttl_in) vs ws).map recPair =
      vs.take ws.length := by
  induction vs generalizing ws with
  | nil => simp
  | cons pt rest ih =>
    cases ws with
    | nil => simp
    | cons w ws' =>
      simp [recPair, updRec, ih]

theorem zipWith_updRec_map_id (pfx : Option String) (type_in : String)
    (ttl_in : Int) (vs : List (Option Int × String)) (ws : List DNSRecord) :
    (List.zipWith (updRec pfx type_in ttl_in) vs ws).map (fun r => r.id) =
      (ws.take vs.length).map (fun r => r.id) := by
  induction vs generalizing ws with
  | nil => simp
  | cons pt rest ih =>
    cases ws with
    | nil => simp
    | cons w ws' =>
      simp [updRec, ih]

theorem exists_of_mem_zipWith {α β γ : Type} {f : α → β → γ} {c : γ}
    {as : List α} {bs : List β} (h : c ∈ List.zipWith f as bs) :
    ∃ a ∈ as, ∃ b ∈ bs, c = f a b := by
  induction as generalizing bs with
  | nil => simp at h
  | cons a as' ih =>
    cases bs with
    | nil => simp at h
    | cons b bs' =>
      rcases List.mem_cons.mp h with rfl | h2
      · exact ⟨a, by simp, b, by simp, rfl⟩
      · obtain ⟨a1, ha1, b1, hb1, rfl⟩ := ih h2
        exact ⟨a1, List.mem_cons_of_mem _ ha1, b1, List.mem_cons_of_mem _ hb1, rfl⟩

theorem map_newRec_pair (pfx : Option String) (type_in : String) (ttl_in : Int)
    (vs : List (Option Int × String)) :
    (vs.map (newRec pfx type_in ttl_in)).map recPair = vs := by
  rw [List.map_map]
  have h : ∀ pt ∈ vs, (recPair ∘ newRec pfx type_in ttl_in) pt = id pt := by
    intro pt _
    simp [recPair, newRec]
  rw [List.map_congr_left h, List.map_id]

theorem zipWith_take_right {α β γ : Type} (f : α → β → γ) (as : List α)
    (bs : List β) (n : Nat) (h : min as.length bs.length ≤ n) :
    List.zipWith f as (bs.take n) = List.zipWith f as bs := by
  induction as generalizing bs n with
  | nil => simp
  | cons a as' ih =>
    cases bs with
    | nil => simp
    | cons b bs' =>
      cases n with
      | zero => simp at h
      | succ m =>
        simp only [List.take_succ_cons, List.zipWith_cons_cons]
        rw [ih bs' m (by simp at h ⊢; omega)]

theorem filterMap_eq_self_of {α : Type} {f : α → Option α} {l : List α}
    (h : ∀ a ∈ l, f a = some a) : l.filterMap f = l := by
  induction l with
  | nil => simp
  | cons a l' ih =>
    rw [List.filterMap_cons, h a (by simp)]
    rw [ih fun x hx => h x (List.mem_cons_of_mem _ hx)]

theorem filterMap_congr_mem {α β : Type} {f g : α → Option β} {l : List α}
    (h : ∀ a ∈ l, f a = g a) : l.filterMap f = l.filterMap g := by
  induction l with
  | nil => simp
  | cons a l' ih =>
    rw [List.filterMap_cons, List.filterMap_cons, h a (by simp),
      ih fun x hx => h x (List.mem_cons_of_mem _ hx)]

/-- Updating a list of records (`bs`) through id-lookup in a list `cs` that
carries exactly the same ids in the same order reproduces `cs`: every record
is replaced by its updated version. -/
theorem filterMap_apply_eq (d : List DNSRecord) (bs : List DNSRecord) :
    ∀ cs : List DNSRecord,
    cs.map (fun r => r.id) = bs.map (fun r => r.id) →
    (bs.map (fun r => r.id)).Nodup →
    (∀ b ∈ bs, (d.any fun x => x.id == b.id) = false) →
    bs.filterMap (applyRecordOps d cs) = cs := by
  induction bs with
  | nil =>
    intro cs hmap _ _
    simp only [List.map_nil, List.map_eq_nil_iff] at hmap
    simp [hmap]
  | cons b bs' ih =>
    intro cs hmap hnd hany
    cases cs with
    | nil => simp at hmap
    | cons c0 cs' =>
      simp only [List.map_cons, List.cons.injEq] at hmap
      obtain ⟨hc0, hcs'⟩ := hmap
      have hnd' := List.nodup_cons.mp hnd
      have hb_not : b.id ∉ bs'.map fun r => r.id := hnd'.1
      have hg : applyRecordOps d (c0 :: cs') b = some c0 := by
        simp only [applyRecordOps, hany b (by simp)]
        rw [if_neg (by simp)]
        rw [List.find?_cons, show (c0.id == b.id) = true from beq_iff_eq.mpr hc0]
      have hcongr : ∀ b' ∈ bs',
          applyRecordOps d (c0 :: cs') b' = applyRecordOps d cs' b' := by
        intro b' hb'
        have hne : c0.id ≠ b'.id := by
          rw [hc0]
          intro hEq
          exact hb_not (hEq ▸ List.mem_map_of_mem (fun r => r.id) hb')
        simp only [applyRecordOps]
        rw [List.find?_cons, show (c0.id == b'.id) = false from beq_eq_false_iff_ne.mpr hne]
      rw [List.filterMap_cons, hg, filterMap_congr_mem hcongr,
        ih cs' hcs' hnd'.2 fun x hx => hany x (List.mem_cons_of_mem _ hx)]

/-- Effect of applying the output of the operation-building loop: up to
permutation, the resulting record set is the matched records, the updated
records and the created records.  `hperm` is the partition produced by the
comparison loop; the id-uniqueness hypothesis models object identity of the
candidate records. -/
theorem applyAll_perm_general (pfx : Option String) (type_in : String)
    (ttl_in : Int) (vs : List (Option Int × String))
    (matched mm records : List DNSRecord)
    (hperm : records.Perm (matched ++ mm))
    (hids : (records.map fun r => r.id).Nodup) :
    (applyAll records
      (buildOps pfx type_in ttl_in vs mm).1
      (buildOps pfx type_in ttl_in vs mm).2.1
      (buildOps pfx type_in ttl_in vs mm).2.2).Perm
    (matched ++ (buildOps pfx type_in ttl_in vs mm).2.1 ++
      (buildOps pfx type_in ttl_in vs mm).2.2) := by
  rw [buildOps_eq]
  set j := mm.length - vs.length with hj
  set A := mm.take j with hA
  set B := mm.drop j with hB
  set c := List.zipWith (updRec pfx type_in ttl_in) vs mm.reverse with hcdef
  set n := (vs.drop mm.length).map (newRec pfx type_in ttl_in) with hndef
  have hAB : A ++ B = mm := List.take_append_drop j mm
  have hBlen : B.length ≤ vs.length := by
    rw [hB, List.length_drop]
    omega
  -- `c` is the same zip taken over `B.reverse`
  have hc : c = List.zipWith (updRec pfx type_in ttl_in) vs B.reverse := by
    rw [hcdef, hB, List.reverse_drop]
    rw [zipWith_take_right _ _ _ _ (by rw [List.length_reverse]; omega)]
  -- ids of `c` are the ids of `B.reverse`
  have hcids : c.map (fun r => r.id) = B.reverse.map fun r => r.id := by
    rw [hc, zipWith_updRec_map_id]
    rw [List.take_of_length_le (by rw [List.length_reverse]; exact hBlen)]
  -- id collections and their disjointness
  have hnodup2 : ((matched ++ mm).map fun r => r.id).Nodup :=
    (hperm.map fun r => r.id).nodup hids
  rw [List.map_append] at hnodup2
  obtain ⟨hndm, hndmm, hdisj⟩ := List.nodup_append.mp hnodup2
  have hndAB : ((A.map fun r => r.id) ++ B.map fun r => r.id).Nodup := by
    rw [← List.map_append, hAB]
    exact hndmm
  obtain ⟨hndA, hndB, hdisjAB⟩ := List.nodup_append.mp hndAB
  -- matched records are untouched by the operations
  have hmatched : matched.filterMap (applyRecordOps A c) = matched := by
    apply filterMap_eq_self_of
    intro m hm
    have hmid : m.id ∈ matched.map fun r => r.id := List.mem_map_of_mem _ hm
    have hnotmm : m.id ∉ mm.map fun r => r.id := fun hmm => hdisj hmid hmm
    have hany : (A.any fun x => x.id == m.id) = false := by
      rw [List.any_eq_false]
      intro x hx
      simp only [beq_iff_eq]
      intro hEq
      exact hnotmm (hEq ▸ List.mem_map_of_mem _ (List.mem_of_mem_take hx))
    have hfind : c.find? (fun x => x.id == m.id) = none := by
      rw [List.find?_eq_none]
      intro x hx
      have : x.id ∈ B.reverse.map fun r => r.id := hcids ▸ List.mem_map_of_mem _ hx
      rw [List.map_reverse, List.mem_reverse] at this
      simp only [beq_iff_eq]
      intro hEq
      apply hnotmm
      rw [← hEq, ← hAB, List.map_append]
      exact List.mem_append_right _ this
    simp [applyRecordOps, hany, hfind]
  -- records listed in the final `to_delete` disappear
  have hdel : A.filterMap (applyRecordOps A c) = [] := by
    rw [List.filterMap_eq_nil_iff]
    intro a ha
    have : (A.any fun x => x.id == a.id) = true :=
      List.any_eq_true.mpr ⟨a, ha, beq_self_eq_true a.id⟩
    simp [applyRecordOps, this]
  -- mismatched records that were popped are replaced by their updates
  have hupd : (B.filterMap (applyRecordOps A c)).Perm c := by
    have h1 : (B.filterMap (applyRecordOps A c)).Perm
        (B.reverse.filterMap (applyRecordOps A c)) :=
      (List.reverse_perm B).symm.filterMap _
    have h2 : B.reverse.filterMap (applyRecordOps A c) = c := by
      apply filterMap_apply_eq
      · rw [hcids]
      · rw [List.map_reverse, List.nodup_reverse]
        exact hndB
      · intro b hb
        rw [List.mem_reverse] at hb
        rw [List.any_eq_false]
        intro x hx
        simp only [beq_iff_eq]
        intro hEq
        exact hdisjAB (hEq ▸ List.mem_map_of_mem _ hx) (List.mem_map_of_mem _ hb)
    exact h1.trans (by rw [h2])
  -- assemble
  show (records.filterMap (applyRecordOps A c) ++ n).Perm (matched ++ c ++ n)
  refine List.Perm.append_right n ?_
  have e2 := hperm.filterMap (applyRecordOps A c)
  have e1 : (matched ++ mm).filterMap (applyRecordOps A c) =
      matched ++ B.filterMap (applyRecordOps A c) := by
    rw [List.filterMap_append, hmatched, ← hAB, List.filterMap_append, hdel,
      List.nil_append]
  rw [e1] at e2
  exact e2.trans (List.Perm.append_left matched hupd)

/-- After applying the operations computed for a record set, every record has
the desired ttl and the multiset of `(priority, target)` pairs is exactly the
desired value multiset. -/
theorem applyAll_good (pfx : Option String) (type_in : String) (ttl_in : Int)
    (values : List (Option Int × String)) (records : List DNSRecord)
    (hids : (records.map fun r => r.id).Nodup) :
    (∀ r ∈ applyAll records
      (buildOps pfx type_in ttl_in (compareRecords ttl_in records values).2.2
        (compareRecords ttl_in records values).2.1).1
      (buildOps pfx type_in ttl_in (compareRecords ttl_in records values).2.2
        (compareRecords ttl_in records values).2.1).2.1
      (buildOps pfx type_in ttl_in (compareRecords ttl_in records values).2.2
        (compareRecords ttl_in records values).2.1).2.2, r.ttl = ttl_in) ∧
    ((applyAll records
      (buildOps pfx type_in ttl_in (compareRecords ttl_in records values).2.2
        (compareRecords ttl_in records values).2.1).1
      (buildOps pfx type_in ttl_in (compareRecords ttl_in records values).2.2
        (compareRecords ttl_in records values).2.1).2.1
      (buildOps pfx type_in ttl_in (compareRecords ttl_in records values).2.2
        (compareRecords ttl_in records values).2.1).2.2).map recPair).Perm values := by
  have hperm :=
    applyAll_perm_general pfx type_in ttl_in (compareRecords ttl_in records values).2.2
      (compareRecords ttl_in records values).1 (compareRecords ttl_in records values).2.1
      records (compareRecords_perm_records ttl_in records values) hids
  rw [buildOps_eq] at hperm ⊢
  constructor
  · intro r hr
    have hr2 := hperm.mem_iff.mp hr
    rcases List.mem_append.mp hr2 with hr3 | hn
    · rcases List.mem_append.mp hr3 with hm | hc
      · exact compareRecords_matched_ttl ttl_in records values r hm
      · obtain ⟨pt, _, w, _, rfl⟩ := exists_of_mem_zipWith hc
        simp [updRec]
    · obtain ⟨pt, _, rfl⟩ := List.mem_map.mp hn
      simp [newRec]
  · have hmap := hperm.map recPair
    refine hmap.trans ?_
    rw [List.map_append, List.map_append, zipWith_updRec_map_pair,
      map_newRec_pair, List.length_reverse]
    have := compareRecords_perm_values ttl_in records values
    rw [List.append_assoc, List.take_append_drop]
    exact this.symm

/-- Applying an empty operation list leaves the record set unchanged. -/
theorem applyAll_nil_ops (records : List DNSRecord) :
    applyAll records [] [] [] = records := by
  rw [applyAll, List.append_nil]
  apply filterMap_eq_self_of
  intro r _
  simp [applyRecordOps]

/-- Deleting every record empties the record set. -/
theorem applyAll_delete_all (records : List DNSRecord) :
    applyAll records records [] [] = [] := by
  rw [applyAll, List.append_nil, List.filterMap_eq_nil_iff]
  intro r hr
  have hany : (records.any fun d => d.id == r.id) = true :=
    List.any_eq_true.mpr ⟨r, hr, beq_self_eq_true r.id⟩
  simp [applyRecordOps, hany]

/-- Characterization of a successful `present` reconciliation: the returned
operations are always those of the operation-building loop seeded with the
mismatched records (when the seed branch is not taken, the mismatched list is
empty anyway). -/
theorem reconcile_present_ok (overwrite : Bool) (pfx : Option String)
    (type_in : String) (ttl_in : Int) (values : List (Option Int × String))
    (records : List DNSRecord)
    (d c n : List DNSRecord)
    (h : reconcile .present overwrite pfx type_in ttl_in values records = .ok (d, c, n)) :
    (d, c, n) = buildOps pfx type_in ttl_in
      (compareRecords ttl_in records values).2.2
      (compareRecords ttl_in records values).2.1 := by
  by_cases h1 : (!records.isEmpty &&
      (!(compareRecords ttl_in records values).2.1.isEmpty ||
        !(compareRecords ttl_in records values).2.2.isEmpty) && !overwrite) = true
  · rw [reconcile] at h
    simp only [h1, if_true] at h
    cases h
  · rw [reconcile] at h
    simp only [h1, if_false, Bool.false_eq_true, Except.ok.injEq] at h
    by_cases h2 : (!records.isEmpty &&
        (!(compareRecords ttl_in records values).2.1.isEmpty ||
          !(compareRecords ttl_in records values).2.2.isEmpty) && overwrite) = true
    · rw [if_pos h2] at h
      exact h.symm
    · rw [if_neg h2] at h
      have hmm : (compareRecords ttl_in records values).2.1 = [] := by
        by_cases hre : records.isEmpty
        · have : records = [] := List.isEmpty_iff.mp hre
          subst this
          rfl
        · by_cases hmis : (!(compareRecords ttl_in records values).2.1.isEmpty ||
              !(compareRecords ttl_in records values).2.2.isEmpty) = true
          · cases how : overwrite
            · exact absurd (by simp [hre, hmis, how]) h1
            · exact absurd (by simp [hre, hmis, how]) h2
          · simp only [Bool.or_eq_true, Bool.not_eq_true', not_or] at hmis
            exact List.isEmpty_iff.mp (by simpa using hmis.1)
      rw [hmm]
      exact h.symm

/-- Claim C2: reconciliation is idempotent.  For every candidate record list
(with distinct record identities, modelled as distinct ids) and every desired
specification under the `present` or `absent` policy, if the reconciliation
step succeeds with operations `(to_delete, to_change, to_create)`, then
re-running the same reconciliation on the record set obtained by applying
those operations returns an empty operation list (`changed=False`). -/
theorem C2_reconcile_idempotent (state : RecState) (overwrite : Bool)
    (pfx : Option String) (type_in : String) (ttl_in : Int)
    (values : List (Option Int × String)) (records : List DNSRecord)
    (hids : (records.map fun r => r.id).Nodup)
    (d c n : List DNSRecord)
    (h : reconcile state overwrite pfx type_in ttl_in values records = .ok (d, c, n)) :
    reconcile state overwrite pfx type_in ttl_in values (applyAll records d c n) =
      .ok ([], [], []) := by
  cases state with
  | present =>
    have hops := reconcile_present_ok overwrite pfx type_in ttl_in values records d c n h
    obtain ⟨hd, hcc, hnn⟩ : d = _ ∧ c = _ ∧ n = _ := by
      simpa [Prod.ext_iff] using hops
    subst hd
    subst hcc
    subst hnn
    have hgood := applyAll_good pfx type_in ttl_in values records hids
    have hcmp := compareRecords_of_exact ttl_in _ values hgood.1 hgood.2
    rw [reconcile]
    simp [hcmp, buildOps]
  | absent =>
    rw [reconcile] at h
    by_cases hc1 : ((!(compareRecords ttl_in records values).2.1.isEmpty ||
        !(compareRecords ttl_in records values).2.2.isEmpty)) = true
    · rw [if_neg (by simp [hc1])] at h
      obtain ⟨hd, hcc, hnn⟩ : d = ([] : List DNSRecord) ∧ c = ([] : List DNSRecord) ∧
          n = ([] : List DNSRecord) := by
        simpa [Prod.ext_iff] using h.symm
      subst hd
      subst hcc
      subst hnn
      rw [applyAll_nil_ops, reconcile, if_neg (by simp [hc1])]
    · rw [if_pos (by simp only [Bool.not_eq_true] at hc1; simp [hc1])] at h
      obtain ⟨hd, hcc, hnn⟩ : d = records ∧ c = ([] : List DNSRecord) ∧
          n = ([] : List DNSRecord) := by
        simpa [Prod.ext_iff] using h.symm
      subst hd
      subst hcc
      subst hnn
      rw [applyAll_delete_all, reconcile]
      simp [compareRecords]

/-- Witness for C2 at a concrete input: one candidate with a stale ttl, one
desired value, overwrite enabled; applying the computed single update and
re-running reconciliation reports nothing to change. -/
theorem C2_reconcile_idempotent_witness :
    reconcile .present true (some "www") "A" 7200 [(Option.none, "2.2.2.2")]
      (applyAll [⟨some 1, some "www", "A", "1.1.1.1", 3600, Option.none⟩]
        [] [⟨some 1, some "www", "A", "2.2.2.2", 7200, Option.none⟩] []) =
      .ok ([], [], []) :=
  C2_reconcile_idempotent .present true (some "www") "A" 7200
    [(Option.none, "2.2.2.2")]
    [⟨some 1, some "www", "A", "1.1.1.1", 3600, Option.none⟩]
    (by decide) [] [⟨some 1, some "www", "A", "2.2.2.2", 7200, Option.none⟩] []
    (by rfl)

/-- Counterexample to claim C3 as stated: with no candidate records and one
desired value the mismatch condition of the claim holds (a desired pair is
left unmatched) and overwrite is disabled, yet the module does not fail — it
emits a create operation. -/
theorem C3_counterexample :
    (compareRecords 3600 ([] : List DNSRecord) [(Option.none, "1.1.1.1")]).2.2 ≠ [] ∧
    reconcile .present false (some "www") "A" 3600 [(Option.none, "1.1.1.1")] [] =
      .ok ([], [], [⟨Option.none, some "www", "A", "1.1.1.1", 3600, Option.none⟩]) :=
  ⟨by decide, by rfl⟩

/-- Claim C3 (amended): under the `present` policy with overwrite disabled,
whenever there is at least one candidate record and the candidates mismatch
the desired specification (a mismatched candidate or a leftover desired
pair), reconciliation fails with the conflict error and returns no
operations. -/
theorem C3_conflict_error (pfx : Option String) (type_in : String)
    (ttl_in : Int) (values : List (Option Int × String))
    (records : List DNSRecord)
    (hne : records ≠ [])
    (hmis : (compareRecords ttl_in records values).2.1 ≠ [] ∨
      (compareRecords ttl_in records values).2.2 ≠ []) :
    reconcile .present false pfx type_in ttl_in values records =
      .error (.failJson
        "Record already exists with different value. Set overwrite to replace it") := by
  rw [reconcile]
  have h1 : records.isEmpty = false := by
    simpa [List.isEmpty_iff] using hne
  have h2 : (!(compareRecords ttl_in records values).2.1.isEmpty ||
      !(compareRecords ttl_in records values).2.2.isEmpty) = true := by
    rcases hmis with hm | hm <;> simp [List.isEmpty_iff, hm]
  rw [if_pos (by simp [h1, h2])]

/-- Witness for C3 (amended): one candidate with a stale ttl, overwrite
disabled — the module fails with the conflict error. -/
theorem C3_conflict_error_witness :
    reconcile .present false (some "www") "A" 7200 [(Option.none, "1.1.1.1")]
      [⟨some 1, some "www", "A", "1.1.1.1", 3600, Option.none⟩] =
      .error (.failJson
        "Record already exists with different value. Set overwrite to replace it") :=
  C3_conflict_error (some "www") "A" 7200 [(Option.none, "1.1.1.1")]
    [⟨some 1, some "www", "A", "1.1.1.1", 3600, Option.none⟩]
    (by decide) (by decide)

/-- Claim C4: under the `present` policy with overwrite enabled and a
mismatch, the engine pairs mismatched candidates with leftover desired pairs
into updates — `min` of the two counts — and only the surplus on either side
becomes deletions (respectively creations); the updated and created records
together carry exactly the leftover desired `(priority, target)` pairs, and
all of them carry the desired ttl, subdomain label and type (created records
have no id yet). -/
theorem C4_present_overwrite_updates (pfx : Option String) (type_in : String)
    (ttl_in : Int) (values : List (Option Int × String))
    (records : List DNSRecord) (d c n : List DNSRecord)
    (_hne : records ≠ [])
    (_hmis : (compareRecords ttl_in records values).2.1 ≠ [] ∨
      (compareRecords ttl_in records values).2.2 ≠ [])
    (h : reconcile .present true pfx type_in ttl_in values records = .ok (d, c, n)) :
    c.length = min (compareRecords ttl_in records values).2.2.length
        (compareRecords ttl_in records values).2.1.length ∧
    d.length = (compareRecords ttl_in records values).2.1.length -
        (compareRecords ttl_in records values).2.2.length ∧
    n.length = (compareRecords ttl_in records values).2.2.length -
        (compareRecords ttl_in records values).2.1.length ∧
    c.map recPair ++ n.map recPair = (compareRecords ttl_in records values).2.2 ∧
    (∀ r ∈ c, r.ttl = ttl_in ∧ r.pfx = pfx ∧ r.type = type_in) ∧
    (∀ r ∈ n, r.id = Option.none ∧ r.ttl = ttl_in ∧ r.pfx = pfx ∧ r.type = type_in) := by
  have hops := reconcile_present_ok true pfx type_in ttl_in values records d c n h
  rw [buildOps_eq] at hops
  rw [Prod.ext_iff, Prod.ext_iff] at hops
  obtain ⟨hd, hcc, hnn⟩ := hops
  subst hd
  subst hcc
  subst hnn
  refine ⟨?_, ?_, ?_, ?_, ?_, ?_⟩
  · rw [List.length_zipWith, List.length_reverse]
  · rw [List.length_take]
    omega
  · rw [List.length_map, List.length_drop]
  · rw [zipWith_updRec_map_pair, map_newRec_pair, List.length_reverse,
      List.take_append_drop]
  · intro r hr
    obtain ⟨pt, _, w, _, rfl⟩ := exists_of_mem_zipWith hr
    simp [updRec]
  · intro r hr
    obtain ⟨pt, _, rfl⟩ := List.mem_map.mp hr
    simp [newRec]

/-- Witness for C4 at the concrete instance of the claim: candidate
`{ttl 3600, target 1.1.1.1}`, desired `{ttl 7200, values [(null, 2.2.2.2)],
overwrite true}` — the result is exactly one update and no delete or
create. -/
theorem C4_present_overwrite_updates_witness :
    reconcile .present true (some "www") "A" 7200 [(Option.none, "2.2.2.2")]
        [⟨some 5, some "www", "A", "1.1.1.1", 3600, Option.none⟩] =
      .ok ([], [⟨some 5, some "www", "A", "2.2.2.2", 7200, Option.none⟩], []) ∧
    ([⟨some 5, some "www", "A", "2.2.2.2", 7200, Option.none⟩] : List DNSRecord).length =
      min (compareRecords 7200
          [⟨some 5, some "www", "A", "1.1.1.1", 3600, Option.none⟩]
          [(Option.none, "2.2.2.2")]).2.2.length
        (compareRecords 7200
          [⟨some 5, some "www", "A", "1.1.1.1", 3600, Option.none⟩]
          [(Option.none, "2.2.2.2")]).2.1.length ∧
    ([] : List DNSRecord).length =
      (compareRecords 7200
        [⟨some 5, some "www", "A", "1.1.1.1", 3600, Option.none⟩]
        [(Option.none, "2.2.2.2")]).2.1.length -
      (compareRecords 7200
        [⟨some 5, some "www", "A", "1.1.1.1", 3600, Option.none⟩]
        [(Option.none, "2.2.2.2")]).2.2.length := by
  have hmain := C4_present_overwrite_updates (some "www") "A" 7200
    [(Option.none, "2.2.2.2")]
    [⟨some 5, some "www", "A", "1.1.1.1", 3600, Option.none⟩]
    [] [⟨some 5, some "www", "A", "2.2.2.2", 7200, Option.none⟩] []
    (by decide) (by decide) (by rfl)
  exact ⟨by rfl, hmain.1, hmain.2.1⟩

/-- Claim C5: under the `absent` policy, an exact match (every candidate has
the desired ttl and the candidate pairs are, as a multiset, exactly the
desired values) deletes every candidate, and any mismatch emits no operation
at all. -/
theorem C5_absent_policy (overwrite : Bool) (pfx : Option String)
    (type_in : String) (ttl_in : Int) (values : List (Option Int × String))
    (records : List DNSRecord) :
    ((∀ r ∈ records, r.ttl = ttl_in) ∧ (records.map recPair).Perm values →
      reconcile .absent overwrite pfx type_in ttl_in values records =
        .ok (records, [], [])) ∧
    (¬((∀ r ∈ records, r.ttl = ttl_in) ∧ (records.map recPair).Perm values) →
      reconcile .absent overwrite pfx type_in ttl_in values records =
        .ok ([], [], [])) := by
  constructor
  · rintro ⟨h1, h2⟩
    have hcmp := compareRecords_of_exact ttl_in records values h1 h2
    rw [reconcile]
    simp [hcmp]
  · intro hno
    by_cases hboth : (compareRecords ttl_in records values).2.1 = [] ∧
        (compareRecords ttl_in records values).2.2 = []
    · exfalso
      apply hno
      have hp := compareRecords_perm_records ttl_in records values
      rw [hboth.1, List.append_nil] at hp
      constructor
      · intro r hr
        exact compareRecords_matched_ttl ttl_in records values r (hp.mem_iff.mp hr)
      · have hv := compareRecords_perm_values ttl_in records values
        rw [hboth.2, List.append_nil] at hv
        exact (hp.map recPair).trans hv.symm
    · have hmis : (!(compareRecords ttl_in records values).2.1.isEmpty ||
          !(compareRecords ttl_in records values).2.2.isEmpty) = true := by
        rcases not_and_or.mp hboth with h1 | h1 <;> simp [List.isEmpty_iff, h1]
      rw [reconcile]
      rw [if_neg (by simp [hmis])]

/-- Witness for C5: two exactly-matching candidates are both deleted under
`absent`; dropping one desired value turns the same call into a no-op. -/
theorem C5_absent_policy_witness :
    reconcile .absent false Option.none "A" 3600
      [(Option.none, "1.1.1.1"), (Option.none, "2.2.2.2")]
      [⟨some 1, Option.none, "A", "1.1.1.1", 3600, Option.none⟩,
       ⟨some 2, Option.none, "A", "2.2.2.2", 3600, Option.none⟩] =
      .ok ([⟨some 1, Option.none, "A", "1.1.1.1", 3600, Option.none⟩,
            ⟨some 2, Option.none, "A", "2.2.2.2", 3600, Option.none⟩], [], []) ∧
    reconcile .absent false Option.none "A" 3600
      [(Option.none, "1.1.1.1")]
      [⟨some 1, Option.none, "A", "1.1.1.1", 3600, Option.none⟩,
       ⟨some 2, Option.none, "A", "2.2.2.2", 3600, Option.none⟩] =
      .ok ([], [], []) :=
  ⟨(C5_absent_policy false Option.none "A" 3600
      [(Option.none, "1.1.1.1"), (Option.none, "2.2.2.2")]
      [⟨some 1, Option.none, "A", "1.1.1.1", 3600, Option.none⟩,
       ⟨some 2, Option.none, "A", "2.2.2.2", 3600, Option.none⟩]).1
    ⟨by decide, by decide⟩,
   (C5_absent_policy false Option.none "A" 3600
      [(Option.none, "1.1.1.1")]
      [⟨some 1, Option.none, "A", "1.1.1.1", 3600, Option.none⟩,
       ⟨some 2, Option.none, "A", "2.2.2.2", 3600, Option.none⟩]).2
    (by decide)⟩

/-- Claim C9: in the present-with-overwrite branch, the surviving deletions
are exactly the earliest-listed mismatched records, and updates pair the
leftover desired values with the mismatched records from the back
(`to_delete.pop()` is last-in-first-out); creations are the desired values
beyond the number of mismatched records, in order. -/
theorem C9_lifo_pairing (pfx : Option String) (type_in : String)
    (ttl_in : Int) (values : List (Option Int × String))
    (records : List DNSRecord) (d c n : List DNSRecord)
    (_hne : records ≠ [])
    (_hmis : (compareRecords ttl_in records values).2.1 ≠ [] ∨
      (compareRecords ttl_in records values).2.2 ≠ [])
    (h : reconcile .present true pfx type_in ttl_in values records = .ok (d, c, n)) :
    d = (compareRecords ttl_in records values).2.1.take
        ((compareRecords ttl_in records values).2.1.length -
          (compareRecords ttl_in records values).2.2.length) ∧
    c = List.zipWith (updRec pfx type_in ttl_in)
        (compareRecords ttl_in records values).2.2
        (compareRecords ttl_in records values).2.1.reverse ∧
    n = ((compareRecords ttl_in records values).2.2.drop
        (compareRecords ttl_in records values).2.1.length).map
        (newRec pfx type_in ttl_in) := by
  have hops := reconcile_present_ok true pfx type_in ttl_in values records d c n h
  rw [buildOps_eq] at hops
  simpa [Prod.ext_iff] using hops

/-- Witness for C9: three mismatched candidates and one desired value — the
two earliest candidates are deleted and the single update reuses the
most recently listed candidate. -/
theorem C9_lifo_pairing_witness :
    ([⟨some 1, some "w", "A", "1.1.1.1", 3600, Option.none⟩,
      ⟨some 2, some "w", "A", "2.2.2.2", 3600, Option.none⟩] : List DNSRecord) =
      (compareRecords 7200
        [⟨some 1, some "w", "A", "1.1.1.1", 3600, Option.none⟩,
         ⟨some 2, some "w", "A", "2.2.2.2", 3600, Option.none⟩,
         ⟨some 3, some "w", "A", "3.3.3.3", 3600, Option.none⟩]
        [(Option.none, "9.9.9.9")]).2.1.take
        ((compareRecords 7200
          [⟨some 1, some "w", "A", "1.1.1.1", 3600, Option.none⟩,
           ⟨some 2, some "w", "A", "2.2.2.2", 3600, Option.none⟩,
           ⟨some 3, some "w", "A", "3.3.3.3", 3600, Option.none⟩]
          [(Option.none, "9.9.9.9")]).2.1.length -
         (compareRecords 7200
          [⟨some 1, some "w", "A", "1.1.1.1", 3600, Option.none⟩,
           ⟨some 2, some "w", "A", "2.2.2.2", 3600, Option.none⟩,
           ⟨some 3, some "w", "A", "3.3.3.3", 3600, Option.none⟩]
          [(Option.none, "9.9.9.9")]).2.2.length) ∧
    ([⟨some 3, some "w", "A", "9.9.9.9", 7200, Option.none⟩] : List DNSRecord) =
      List.zipWith (updRec (some "w") "A" 7200)
        (compareRecords 7200
          [⟨some 1, some "w", "A", "1.1.1.1", 3600, Option.none⟩,
           ⟨some 2, some "w", "A", "2.2.2.2", 3600, Option.none⟩,
           ⟨some 3, some "w", "A", "3.3.3.3", 3600, Option.none⟩]
          [(Option.none, "9.9.9.9")]).2.2
        (compareRecords 7200
          [⟨some 1, some "w", "A", "1.1.1.1", 3600, Option.none⟩,
           ⟨some 2, some "w", "A", "2.2.2.2", 3600, Option.none⟩,
           ⟨some 3, some "w", "A", "3.3.3.3", 3600, Option.none⟩]
          [(Option.none, "9.9.9.9")]).2.1.reverse ∧
    ([] : List DNSRecord) =
      ((compareRecords 7200
          [⟨some 1, some "w", "A", "1.1.1.1", 3600, Option.none⟩,
           ⟨some 2, some "w", "A", "2.2.2.2", 3600, Option.none⟩,
           ⟨some 3, some "w", "A", "3.3.3.3", 3600, Option.none⟩]
          [(Option.none, "9.9.9.9")]).2.2.drop
        (compareRecords 7200
          [⟨some 1, some "w", "A", "1.1.1.1", 3600, Option.none⟩,
           ⟨some 2, some "w", "A", "2.2.2.2", 3600, Option.none⟩,
           ⟨some 3, some "w", "A", "3.3.3.3", 3600, Option.none⟩]
          [(Option.none, "9.9.9.9")]).2.1.length).map
        (newRec (some "w") "A" 7200) :=
  C9_lifo_pairing (some "w") "A" 7200 [(Option.none, "9.9.9.9")]
    [⟨some 1, some "w", "A", "1.1.1.1", 3600, Option.none⟩,
     ⟨some 2, some "w", "A", "2.2.2.2", 3600, Option.none⟩,
     ⟨some 3, some "w", "A", "3.3.3.3", 3600, Option.none⟩]
    [⟨some 1, some "w", "A", "1.1.1.1", 3600, Option.none⟩,
     ⟨some 2, some "w", "A", "2.2.2.2", 3600, Option.none⟩]
    [⟨some 3, some "w", "A", "9.9.9.9", 7200, Option.none⟩]
    []
    (by decide) (by decide) (by rfl)

/-- Claim C1 (failing input): the boolean `True` does not survive the
round trip.  `encode_wsdl` tags it `xsd:int` with text `"True"` — Python's
`isinstance(True, int)` is true, so the dedicated boolean branch is dead —
and decoding that node runs `int("True")`, which raises `ValueError`.
For contrast, the final conjunct shows an integer round-tripping fine. -/
theorem C1_bool_roundtrip_fails :
    encode_wsdl (newElem "value") (.bool true) =
      { newElem "value" with
          typeAttr := some (_NAMESPACE_XSD, "int")
          text := some "True" } ∧
    decode_wsdl (encode_wsdl (newElem "value") (.bool true)) =
      .error (.valueError "invalid literal for int with base 10") ∧
    decode_wsdl (encode_wsdl (newElem "value") (.bool false)) =
      .error (.valueError "invalid literal for int with base 10") ∧
    decode_wsdl (encode_wsdl (newElem "value") (.int 42)) = .ok (.int 42) :=
  ⟨rfl, rfl, rfl, rfl⟩

/-- Claim C7 (failing input): two matching records with ttls 3600 and 7200.
Both modules report the minimum ttl 3600, but neither ever includes the set
of observed ttls: `ttls` is bound to a 1-tuple, so `len(ttls) > 1` is never
true, although the records carry two distinct ttls. -/
theorem C7_ttl_set_never_reported :
    (([⟨some 1, some "www", "A", "1.1.1.1", 3600, Option.none⟩,
       ⟨some 2, some "www", "A", "2.2.2.2", 7200, Option.none⟩] :
        List DNSRecord).map (fun r => r.ttl)).dedup.length = 2 ∧
    run_module_get "www.example.com" "A"
      [⟨some 1, some "www", "A", "1.1.1.1", 3600, Option.none⟩,
       ⟨some 2, some "www", "A", "2.2.2.2", 7200, Option.none⟩] =
      some ⟨"www.example.com", "A", 3600, ["1.1.1.1", "2.2.2.2"], Option.none⟩ ∧
    facts_run_module_get "www.example.com" "A"
      [⟨some 1, some "www", "A", "1.1.1.1", 3600, Option.none⟩,
       ⟨some 2, some "www", "A", "2.2.2.2", 7200, Option.none⟩] =
      some ⟨"www.example.com", "A", 3600, ["1.1.1.1", "2.2.2.2"], Option.none⟩ :=
  ⟨by decide, by rfl, by rfl⟩

/-!  Supporting lemmas for value parsing. -/

theorem splitFirstChar_eq_none_iff (sep : Char) (l : List Char) :
    splitFirstChar sep l = Option.none ↔ sep ∉ l := by
  induction l with
  | nil => simp [splitFirstChar]
  | cons c rest ih =>
    by_cases hc : c = sep
    · subst hc
      simp [splitFirstChar]
    · rw [splitFirstChar, if_neg hc]
      have hc2 : sep ≠ c := Ne.symm hc
      cases hrest : splitFirstChar sep rest with
      | none =>
        have hr := ih.mp hrest
        simp [List.mem_cons, hc2, hr]
      | some p =>
        have hr : sep ∈ rest := by
          by_contra hn
          rw [ih.mpr hn] at hrest
          cases hrest
        simp [List.mem_cons, hr]

theorem splitFirstChar_append (sep : Char) (a b : List Char) (ha : sep ∉ a) :
    splitFirstChar sep (a ++ sep :: b) = some (a, b) := by
  induction a with
  | nil => simp [splitFirstChar]
  | cons c rest ih =>
    have hc : c ≠ sep := fun h => ha (h ▸ List.mem_cons_self c rest)
    rw [List.cons_append, splitFirstChar, if_neg (fun h => hc h)]
    rw [ih fun hm => ha (List.mem_cons_of_mem c hm)]
    rfl

/-- Parse errors of the value-parsing loop are always Python `ValueError`s
(never a clean `fail_json`). -/
theorem parse_value_error_is_valueError (type_in v : String) (e : PyError)
    (h : parse_value type_in v = .error e) : ∃ msg, e = .valueError msg := by
  rw [parse_value] at h
  split at h
  · split at h
    · split at h
      · cases h
      · rw [Except.error.injEq] at h
        exact ⟨_, h.symm⟩
    · rw [Except.error.injEq] at h
      exact ⟨_, h.symm⟩
  · cases h

theorem parse_values_error_is_valueError (type_in : String) :
    ∀ (value_in : List String) (e : PyError),
    parse_values type_in value_in = .error e → ∃ msg, e = .valueError msg := by
  intro value_in
  induction value_in with
  | nil =>
    intro e h
    cases h
  | cons v rest ih =>
    intro e h
    rw [parse_values] at h
    cases hv : parse_value type_in v with
    | error e0 =>
      rw [hv] at h
      rw [Except.error.injEq] at h
      exact h ▸ parse_value_error_is_valueError type_in v e0 hv
    | ok pv =>
      rw [hv] at h
      cases hrest : parse_values type_in rest with
      | error e1 =>
        rw [hrest] at h
        rw [Except.error.injEq] at h
        exact h ▸ ih e1 hrest
      | ok pvs =>
        rw [hrest] at h
        cases h

/-- Claim C10: for the priority-bearing types MX and PTR every value string is
split at its first space; the part before the space is converted with
`int()`.  A value without a space, or whose part before the first space is
not an integer literal, makes the module raise an uncaught `ValueError`
during value parsing — before any record comparison (the failure does not
depend on the candidate records) and never as a clean `fail_json`
validation failure. -/
theorem C10_mx_ptr_value_parsing (type_in : String)
    (hty : type_in = "MX" ∨ type_in = "PTR") :
    (∀ s : String, ' ' ∉ s.data →
      parse_value type_in s = .error (.valueError "not enough values to unpack")) ∧
    (∀ a b : List Char, ' ' ∉ a → py_int (String.mk a) = Option.none →
      parse_value type_in (String.mk (a ++ ' ' :: b)) =
        .error (.valueError "invalid literal for int with base 10")) ∧
    (∀ (m : Int) (a b : List Char), ' ' ∉ a → py_int (String.mk a) = some m →
      parse_value type_in (String.mk (a ++ ' ' :: b)) = .ok (some m, String.mk b)) ∧
    (∀ (value_in : List String) (e : PyError),
      parse_values type_in value_in = .error e →
      (∃ msg, e = .valueError msg) ∧
      ∀ (state : RecState) (overwrite : Bool) (pfx : Option String) (ttl_in : Int)
        (records : List DNSRecord),
        run_module_reconcile state overwrite pfx type_in ttl_in value_in records =
          .error e) := by
  have hcond : (type_in = "PTR" ∨ type_in = "MX") := hty.symm
  refine ⟨?_, ?_, ?_, ?_⟩
  · intro s hs
    rw [parse_value, if_pos hcond, split_space_1,
      (splitFirstChar_eq_none_iff ' ' s.data).mpr hs]
  · intro a b ha hint
    have hsplit : split_space_1 (String.mk (a ++ ' ' :: b)) =
        [String.mk a, String.mk b] := by
      rw [split_space_1, show (String.mk (a ++ ' ' :: b)).data = a ++ ' ' :: b from rfl,
        splitFirstChar_append ' ' a b ha]
    rw [parse_value, if_pos hcond, hsplit]
    simp only [hint]
  · intro m a b ha hint
    have hsplit : split_space_1 (String.mk (a ++ ' ' :: b)) =
        [String.mk a, String.mk b] := by
      rw [split_space_1, show (String.mk (a ++ ' ' :: b)).data = a ++ ' ' :: b from rfl,
        splitFirstChar_append ' ' a b ha]
    rw [parse_value, if_pos hcond, hsplit]
    simp only [hint]
  · intro value_in e h
    refine ⟨parse_values_error_is_valueError type_in value_in e h, ?_⟩
    intro state overwrite pfx ttl_in records
    rw [run_module_reconcile, h]

/-- Witness for C10 with MX values: a value without a space and a value whose
priority part is not an integer both abort parsing with a `ValueError`, and
the module run fails with that `ValueError` for any record set (here the
empty one); a well-formed value parses into its priority and target. -/
theorem C10_mx_ptr_value_parsing_witness :
    parse_value "MX" "mail.example.com" =
      .error (.valueError "not enough values to unpack") ∧
    parse_value "MX" (String.mk ("ten".data ++ ' ' :: "mail.example.com".data)) =
      .error (.valueError "invalid literal for int with base 10") ∧
    parse_value "MX" (String.mk ("10".data ++ ' ' :: "mail.example.com".data)) =
      .ok (some 10, String.mk "mail.example.com".data) ∧
    run_module_reconcile .present false Option.none "MX" 3600 ["mail.example.com"] [] =
      .error (.valueError "not enough values to unpack") := by
  have hmain := C10_mx_ptr_value_parsing "MX" (Or.inl rfl)
  refine ⟨hmain.1 "mail.example.com" (by decide), ?_, ?_, ?_⟩
  · exact hmain.2.1 "ten".data "mail.example.com".data (by decide) (by rfl)
  · exact hmain.2.2.1 10 "10".data "mail.example.com".data (by decide) (by rfl)
  · exact (hmain.2.2.2 ["mail.example.com"]
      (.valueError "not enough values to unpack") (by rfl)).2 .present false
      Option.none 3600 []

/-!  Supporting lemmas for the parser. -/

/-- Whatever the fault element contains, the raised error is a `WSDLError`
(modelled as `PyError.wsdlError` with some origin and message). -/
theorem faultError_shape (fault : XmlNode) :
    ∃ origin message, faultError fault = .wsdlError origin message := by
  rw [faultError]
  split
  · split
    · split
      · exact ⟨_, _, rfl⟩
      · exact ⟨_, _, rfl⟩
    · exact ⟨_, _, rfl⟩
  · exact ⟨_, _, rfl⟩

/-- Claim C6: fault priority.  Whenever a response document contains (at any
depth) a fault element carrying a non-empty fault string, constructing the
Parser raises a `WSDLError` with an origin and a message; no parser state is
ever produced, so no header or body result can be extracted via
`get_header`/`get_result`. -/
theorem C6_fault_priority (api : String) (root f : XmlNode)
    (hmem : f ∈ root.iterAll)
    (hns : f.ns = some _main_ns)
    (htag : f.tag = "Fault")
    (_hstr : ∃ fs, pyFind f "faultstring" = some fs ∧ ∃ t, fs.text = some t ∧ t ≠ "") :
    (∃ origin message, Parser_init api root = .error (.wsdlError origin message)) ∧
    ∀ st : ParserState, Parser_init api root ≠ .ok st := by
  have hf : isFaultTag f = true := by
    rw [isFaultTag, hns, htag]
    simp
  have hmemf : f ∈ root.iterAll.filter isFaultTag := List.mem_filter.mpr ⟨hmem, hf⟩
  have hne : root.iterAll.filter isFaultTag ≠ [] := fun hnil => by
    rw [hnil] at hmemf
    cases hmemf
  cases hhead : (root.iterAll.filter isFaultTag).head? with
  | none => exact absurd (List.head?_eq_none_iff.mp hhead) hne
  | some f0 =>
    have hres : Parser_init api root = .error (faultError f0) := by
      rw [Parser_init, hhead]
    obtain ⟨o, m, hfe⟩ := faultError_shape f0
    refine ⟨⟨o, m, by rw [hres, hfe]⟩, ?_⟩
    intro st hok
    rw [hres] at hok
    cases hok

/-- Witness document for C6: an envelope whose body carries a server fault
with fault code `SOAP-ENV:Server` and fault string `zone not found`. -/
def sampleFaultElem : XmlNode :=
  ⟨some _main_ns, "Fault", Option.none, Option.none, Option.none,
    [⟨Option.none, "faultcode", Option.none, Option.none, some "SOAP-ENV:Server", [], []⟩,
     ⟨Option.none, "faultstring", Option.none, Option.none, some "zone not found", [], []⟩],
    [("SOAP-ENV", _main_ns)]⟩

def sampleFaultDoc : XmlNode :=
  ⟨some _main_ns, "Envelope", Option.none, Option.none, Option.none,
    [⟨some _main_ns, "Body", Option.none, Option.none, Option.none,
      [sampleFaultElem], []⟩],
    []⟩

/-- Witness for C6: constructing the parser on the sample fault document
yields a `WSDLError`, never a parser state. -/
theorem C6_fault_priority_witness :
    (∃ origin message,
      Parser_init "https://ns1.hosttech.eu/public/api" sampleFaultDoc =
        .error (.wsdlError origin message)) ∧
    ∀ st : ParserState,
      Parser_init "https://ns1.hosttech.eu/public/api" sampleFaultDoc ≠ .ok st :=
  C6_fault_priority "https://ns1.hosttech.eu/public/api" sampleFaultDoc
    sampleFaultElem
    (by simp [sampleFaultDoc, sampleFaultElem, XmlNode.iterAll, iterAllList])
    (by rfl) (by rfl)
    ⟨⟨Option.none, "faultstring", Option.none, Option.none, some "zone not found", [], []⟩,
      by rfl, "zone not found", by rfl, by decide⟩

/-- Python dict lookup after one assignment. -/
theorem pyDictGet_pyDictSet (d : List (String × PyVal)) (kk k : String) (v : PyVal) :
    pyDictGet (pyDictSet d kk v) k = if kk = k then some v else pyDictGet d k := by
  induction d with
  | nil =>
    by_cases h : kk = k <;> simp [pyDictSet, pyDictGet, h]
  | cons hd rest ih =>
    obtain ⟨k0, v0⟩ := hd
    by_cases h0 : k0 = kk
    · subst h0
      by_cases hk : k0 = k <;> simp [pyDictSet, pyDictGet, hk]
    · by_cases hk : k0 = k
      · subst hk
        have hkk : ¬ kk = k0 := fun h => h0 h.symm
        simp [pyDictSet, pyDictGet, h0, hkk]
      · simp [pyDictSet, pyDictGet, h0, hk, ih]

/-- Looking up a key after a sequence of dict assignments returns the value of
the LAST assignment to that key, falling back to the initial dict. -/
theorem pyDictGet_foldl_set (assigns : List (String × PyVal)) :
    ∀ (acc : List (String × PyVal)) (k : String),
    pyDictGet (assigns.foldl (fun d kv => pyDictSet d kv.1 kv.2) acc) k =
      match (assigns.filter fun kv => kv.1 == k).getLast? with
      | some kv => some kv.2
      | Option.none => pyDictGet acc k := by
  induction assigns with
  | nil =>
    intro acc k
    rfl
  | cons kv rest ih =>
    intro acc k
    rw [List.foldl_cons, ih]
    by_cases hk : kv.1 = k
    · rw [List.filter_cons, if_pos (by simp [hk])]
      cases hrest : (rest.filter fun kv => kv.1 == k).getLast? with
      | some x =>
        rw [List.getLast?_cons, hrest]
        rfl
      | none =>
        have hnil : (rest.filter fun kv => kv.1 == k) = [] :=
          List.getLast?_eq_none_iff.mp hrest
        rw [hnil, pyDictGet_pyDictSet, if_pos hk]
        rfl
    · rw [List.filter_cons, if_neg (by simp [hk])]
      cases hrest : (rest.filter fun kv => kv.1 == k).getLast? with
      | some x => rfl
      | none => rw [pyDictGet_pyDictSet, if_neg hk]

/-- `Parser._parse` over a list of children that each decode to exactly one
`return` value: the result is the sequence of dict assignments
`result[child.tag] = value` in child order. -/
theorem parseChildren_ok (api : String) (cs : List XmlNode)
    (assigns : List (String × PyVal))
    (h : List.Forall₂ (fun child kv =>
      child.ns = some api ∧ child.tag = kv.1 ∧
      (returnsOf child).map decode_wsdl = [Except.ok kv.2]) cs assigns) :
    ∀ acc, cs.foldlM (parseChild api) acc =
      .ok (assigns.foldl (fun d kv => pyDictSet d kv.1 kv.2) acc) := by
  induction h with
  | nil =>
    intro acc
    rfl
  | @cons child kv l₁ l₂ h₁ h₂ ih =>
    intro acc
    obtain ⟨hns, htag, hret⟩ := h₁
    have hret2 : ∃ r, returnsOf child = [r] ∧ decode_wsdl r = .ok kv.2 := by
      cases hr : returnsOf child with
      | nil =>
        rw [hr] at hret
        cases hret
      | cons r rest2 =>
        cases rest2 with
        | nil =>
          rw [hr, List.map_cons, List.map_nil] at hret
          exact ⟨r, rfl, by injection hret⟩
        | cons r2 rest3 =>
          rw [hr] at hret
          have := congrArg List.length hret
          simp at this
    obtain ⟨r, hr1, hr2⟩ := hret2
    have hpc : parseChild api acc child = .ok (pyDictSet acc kv.1 kv.2) := by
      rw [parseChild, if_neg (by rw [hns]; simp), hr1, List.foldlM_cons, hr2, htag]
      rfl
    rw [List.foldlM_cons, hpc]
    exact ih (pyDictSet acc kv.1 kv.2)

/-- Claim C8 (amended): when a fault-free section contains several elements in
the endpoint namespace sharing a local name, the parser stores the decoded
`return` value of the LAST such element (each dict assignment overwrites the
previous one), so a lookup returns the last occurrence's decoded value. -/
theorem C8_last_wins (api : String) (body : XmlNode)
    (assigns : List (String × PyVal)) (k : String)
    (h : List.Forall₂ (fun child kv =>
        child.ns = some api ∧ child.tag = kv.1 ∧
        (returnsOf child).map decode_wsdl = [Except.ok kv.2]) body.children assigns) :
    Parser_parse api [] body =
      .ok (assigns.foldl (fun d kv => pyDictSet d kv.1 kv.2) []) ∧
    pyDictGet (assigns.foldl (fun d kv => pyDictSet d kv.1 kv.2) []) k =
      ((assigns.filter fun kv => kv.1 == k).getLast?).map (fun kv => kv.2) := by
  constructor
  · rw [Parser_parse]
    exact parseChildren_ok api body.children assigns h []
  · rw [pyDictGet_foldl_set]
    cases hl : (assigns.filter fun kv => kv.1 == k).getLast? with
    | some x => rfl
    | none => rfl

/-- A response element in the endpoint namespace whose `return` child decodes
to the given integer. -/
def dupRespElem (v : Int) : XmlNode :=
  ⟨some "https://ns1.hosttech.eu/public/api", "getZoneResponse", Option.none,
    Option.none, Option.none,
    [⟨Option.none, "return", Option.none, some (_NAMESPACE_XSD, "int"),
      some (toString v), [], []⟩], []⟩

/-- A fault-free response document whose body holds two `getZoneResponse`
elements with different `return` values. -/
def dupRespDoc : XmlNode :=
  ⟨some _main_ns, "Envelope", Option.none, Option.none, Option.none,
    [⟨some _main_ns, "Body", Option.none, Option.none, Option.none,
      [dupRespElem 1, dupRespElem 2], []⟩],
    []⟩

/-- Counterexample to claim C8 as stated: with two body elements sharing the
local name `getZoneResponse` decoding to 1 and 2, the parser stores 2 (the
last one), not 1 (the first one), and `get_result` returns 2. -/
theorem C8_counterexample :
    Parser_init "https://ns1.hosttech.eu/public/api" dupRespDoc =
      .ok ⟨[], [("getZoneResponse", PyVal.int 2)]⟩ ∧
    Parser_get_result ⟨[], [("getZoneResponse", PyVal.int 2)]⟩ "getZoneResponse" =
      .ok (PyVal.int 2) ∧
    (Except.ok (PyVal.int 2) : Except PyError PyVal) ≠ .ok (PyVal.int 1) :=
  ⟨rfl, rfl, by simp⟩

/-- Witness for C8 (amended) on the same two-element body: the stored value
under the shared local name is the last assignment's value. -/
theorem C8_last_wins_witness :
    Parser_parse "https://ns1.hosttech.eu/public/api" []
      ⟨some _main_ns, "Body", Option.none, Option.none, Option.none,
        [dupRespElem 1, dupRespElem 2], []⟩ =
      .ok ([("getZoneResponse", PyVal.int 1),
            ("getZoneResponse", PyVal.int 2)].foldl
        (fun d kv => pyDictSet d kv.1 kv.2) []) ∧
    pyDictGet ([("getZoneResponse", PyVal.int 1),
            ("getZoneResponse", PyVal.int 2)].foldl
        (fun d kv => pyDictSet d kv.1 kv.2) []) "getZoneResponse" =
      (([("getZoneResponse", PyVal.int 1),
         ("getZoneResponse", PyVal.int 2)].filter
          fun kv => kv.1 == "getZoneResponse").getLast?).map (fun kv => kv.2) :=
  C8_last_wins "https://ns1.hosttech.eu/public/api"
    ⟨some _main_ns, "Body", Option.none, Option.none, Option.none,
      [dupRespElem 1, dupRespElem 2], []⟩
    [("getZoneResponse", PyVal.int 1), ("getZoneResponse", PyVal.int 2)]
    "getZoneResponse"
    (List.Forall₂.cons ⟨rfl, rfl, rfl⟩ (List.Forall₂.cons ⟨rfl, rfl, rfl⟩
      List.Forall₂.nil))
